import Mathlib

/-!
Shallow embedding of the state-preserving tree-refresh machinery of
`mindbender/widgets/assetwidget.py` and of the Blender host integration
(`avalon/blender/lib.py`, `avalon/blender/pipeline.py`), together with
theorems checking the specification's claims about them.

Machine integers do not occur in the modelled code; DisplayKey values read
through a Qt data role are modelled as `Nat`, with `0` playing the role of a
Python-falsy value (`None`, `""`, `0`) and every nonzero key a truthy value.
-/

/-- A Qt model item as seen through one column: the value its DisplayKey role
returns, plus its ordered child items.  Mirrors the tree handed to
`_iter_model_rows` in `assetwidget.py`. -/
inductive QTree : Type where
  | node (key : Nat) (children : List QTree) : QTree

/-- The DisplayKey of an item (`index.data(role)` in the source). -/
def QTree.key : QTree → Nat
  | .node k _ => k

/-- The ordered children of an item (`model.index(r, c, index)` for
`r < model.rowCount(index)` in the source). -/
def QTree.children : QTree → List QTree
  | .node _ cs => cs

instance : Inhabited QTree := ⟨QTree.node 0 []⟩

/-- Number of items in a tree; `QTree.size.sizeL` counts a forest.  Used only
as fuel for the breadth-first walk, so that the walk stays a structurally
recursive (hence kernel-computable) function. -/
def QTree.size : QTree → Nat
  | .node _ cs => 1 + sizeL cs
where sizeL : List QTree → Nat
  | [] => 0
  | t :: ts => t.size + sizeL ts

/-- Preorder listing of every item of a tree; `QTree.toList.toListF` lists a
forest.  Reference enumeration of "every node reachable from the root". -/
def QTree.toList : QTree → List QTree
  | .node k cs => .node k cs :: toListF cs
where toListF : List QTree → List QTree
  | [] => []
  | t :: ts => t.toList ++ toListF ts

/-- Fuelled breadth-first work-queue walk: the loop of `_iter_model_rows`
(`assetwidget.py` lines 20-33).  The queue starts with some items; visiting an
item appends its children to the back of the queue.  The fuel only bounds the
number of loop iterations. -/
def bfsFuel : Nat → List QTree → List QTree
  | 0, _ => []
  | _ + 1, [] => []
  | f + 1, t :: rest => t :: bfsFuel f (rest ++ t.children)

/-- Breadth-first walk seeded with a given queue, with enough fuel to visit
every item (`QTree.size.sizeL` counts exactly the reachable items). -/
def bfsWalk (q : List QTree) : List QTree := bfsFuel (QTree.size.sizeL q) q

/-- Embeds `_iter_model_rows(model, column, include_root)` (`assetwidget.py`
lines 16-33): the iteration starts at the invisible root index, appends each
visited index's children to the work list, and yields every visited index,
skipping the (invalid) root index unless `include_root` is set.  `root` is the
invisible root; its children are the model's top-level rows. -/
def iter_model_rows (root : QTree) (include_root : Bool) : List QTree :=
  if include_root then bfsWalk [root] else bfsWalk root.children

/-- A model, as `tree_view.model()` exposes it: the ordered top-level rows,
i.e. the children of the invisible root index. -/
abbrev Model := List QTree

/-- The indices enumerated by `_iter_model_rows(model, column, include_root=False)`
over a model, exactly as the capture and restore loops of
`preserve_expanded_rows` and `preserve_selection` enumerate them. -/
def rows (m : Model) : List QTree := iter_model_rows (QTree.node 0 m) false

/-- The per-view state the two preservation context managers read and write:
for each index of `rows m` (positionally) whether it is expanded and whether
its row is selected, plus the position of the current index (`none` when the
current index is invalid). -/
structure ViewState where
  expanded : List Bool
  selected : List Bool
  current : Option Nat
deriving DecidableEq

/-- Capture pass of `preserve_expanded_rows` (lines 59-66): the set of
DisplayKeys of all indices that are currently expanded.  A Python `set` is
modelled as a list whose membership is queried with `contains`. -/
def capturedExpandedKeys (m : Model) (st : ViewState) : List Nat :=
  ((rows m).zip st.expanded).filterMap fun p => if p.2 then some p.1.key else none

/-- Capture pass of `preserve_selection` (lines 117-122): the set of
DisplayKeys of all selected rows (`set(row.data(role) for row in selected_rows)`). -/
def selectedKeys (m : Model) (st : ViewState) : List Nat :=
  ((rows m).zip st.selected).filterMap fun p => if p.2 then some p.1.key else none

/-- `tree_view.currentIndex().data(role)` (line 113): the DisplayKey of the
current index, or `none` when there is no valid current index. -/
def currentKeyOf (m : Model) (st : ViewState) : Option Nat :=
  st.current.bind fun i => (rows m)[i]?.map QTree.key

/-- Restore loop of `preserve_expanded_rows` (lines 74-82): every index of the
new tree is visited and expanded iff its DisplayKey is in the captured set,
collapsed otherwise; since the loop writes every index exactly once, the
resulting expansion assignment is this map over the new rows. -/
def expandRestore (captured : List Nat) (newRows : List QTree) : List Bool :=
  newRows.map fun n => captured.contains n.key

/-- Selection part of the restore loop of `preserve_selection` (lines
130-137): `selection_model.select(index, Select | Rows)` adds the row to the
selection and never deselects, so an index ends selected iff it already was
selected or its DisplayKey is in the captured set. -/
def selectRestore (selKeys : List Nat) (newRows : List QTree) (sel : List Bool) : List Bool :=
  List.zipWith (fun n b => b || selKeys.contains n.key) newRows sel

/-- Helper for the current-index part of the restore loop: scanning the new
rows from position `i` with `acc` the current index so far, every row whose
DisplayKey equals `v` has `setCurrentIndex` called on it, so the last match
(or `acc` when there is none) is the current index after the loop. -/
def lastMatchAux (v : Nat) : Nat → Option Nat → List QTree → Option Nat
  | _, acc, [] => acc
  | i, acc, n :: rest => lastMatchAux v (i + 1) (if n.key == v then some i else acc) rest

/-- Current-index part of the restore loop of `preserve_selection` (lines
139-140): `if current_index_value and value == current_index_value:
tree_view.setCurrentIndex(index)`.  The guard tests Python truthiness of the
captured value, so a captured `None` (here `Option.none`) or falsy key (here
`0`) disables the restore and the current index is left as the action left it. -/
def currentRestore (curKey : Option Nat) (newRows : List QTree) (cur : Option Nat) : Option Nat :=
  match curKey with
  | none => cur
  | some v => if v = 0 then cur else lastMatchAux v 0 cur newRows

/-- Embeds the `preserve_expanded_rows` context manager (`assetwidget.py`
lines 36-82) wrapped around an action.  The action is abstracted by its
result: the model `m'` and view state `st'` it leaves behind, and whether it
raised (`actionRaises`).  Returns the final view state and whether an
exception escapes to the caller.  When the captured set is empty, the `return`
inside the `finally` block both skips the restore pass and, per Python
semantics, swallows any in-flight exception of the wrapped action; otherwise
the restore loop runs on all exit paths and the exception then propagates. -/
def preserve_expanded_rows (m : Model) (st : ViewState) (m' : Model) (st' : ViewState)
    (actionRaises : Bool) : ViewState × Bool :=
  let expanded := capturedExpandedKeys m st
  if expanded.isEmpty then
    (st', false)
  else
    ({ st' with expanded := expandRestore expanded (rows m') }, actionRaises)

/-- Embeds the `preserve_selection` context manager (`assetwidget.py` lines
85-140) wrapped around an action, abstracted as in `preserve_expanded_rows`.
The current key is captured only when `current_index` is set; when no row is
selected the body is run outside any `try/finally` and the manager returns
(propagating any exception) without capturing or restoring anything.  When
some row is selected the captured key set is nonempty, so the `finally`
block's emptiness early-return is unreachable and the restore loop always
runs, after which an action exception propagates. -/
def preserve_selection (m : Model) (st : ViewState) (m' : Model) (st' : ViewState)
    (actionRaises : Bool) (current_index : Bool) : ViewState × Bool :=
  let current_index_value := if current_index then currentKeyOf m st else none
  let selected := selectedKeys m st
  if selected.isEmpty then
    (st', actionRaises)
  else
    ({ st' with
        selected := selectRestore selected (rows m') st'.selected,
        current := currentRestore current_index_value (rows m') st'.current },
      actionRaises)

/-- The nesting used by `AssetWidget._refresh_model` (`assetwidget.py` lines
389-398): `preserve_selection` runs inside `preserve_expanded_rows`, both
wrapping the same (non-raising) rebuild, which is abstracted by the model `m'`
and the reset view state `st'` it leaves behind. -/
def refreshPreserving (m : Model) (st : ViewState) (m' : Model) (st' : ViewState)
    (current_index : Bool) : ViewState :=
  let inner := preserve_selection m st m' st' false current_index
  (preserve_expanded_rows m st m' inner.1 false).1

/-- The restore loop of `preserve_selection` re-run with a host selection
model whose `select` call can raise: `failAt` lists the positions whose
restoration the host rejects.  The loop body (`assetwidget.py` lines 130-137)
contains no exception handler, so the first failing `select` aborts the loop,
leaving the remaining rows unprocessed; the error carries the failing
position.  The loop input is the enumerated new rows. -/
def selectRestoreFallible (failAt : List Nat) (selKeys : List Nat) :
    List (Nat × QTree) → List Bool → Except Nat (List Bool)
  | [], sel => .ok sel
  | (i, n) :: rest, sel =>
    if selKeys.contains n.key then
      if failAt.contains i then .error i
      else selectRestoreFallible failAt selKeys rest (sel.set i true)
    else selectRestoreFallible failAt selKeys rest sel

/-- A Blender scene as `avalon/blender/lib.py` touches it: the identifiers of
the objects that exist, those that are selected (`get_selected`), and the
active object of the view layer. -/
structure Scene where
  objs : List Nat
  selected : List Nat
  active : Option Nat
deriving DecidableEq

/-- Embeds the `maintained_selection` context manager (`lib.py` lines 49-81)
wrapped around an action abstracted by the scene `post` it leaves behind
(objects may have been deleted, selected or renamed).  The `finally` block
first deselects every currently selected object, then — only when the captured
selection is nonempty — reselects each previously selected object in turn,
where `select_set` on an object that no longer exists raises and the
per-object `try/except` catches, prints and continues (hence: exactly the
survivors end selected), and finally reassigns the previously active object. -/
def maintained_selection (pre post : Scene) : Scene :=
  let previous_selection := pre.selected
  let previous_active := pre.active
  let cleared : Scene := { post with selected := [] }
  let reselected : Scene :=
    if previous_selection.isEmpty then cleared
    else { cleared with selected := previous_selection.filter fun o => post.objs.contains o }
  { reselected with active := previous_active }

/-- A Blender collection as `avalon/blender/pipeline.py` touches it: its name
and its `"avalon"` custom property, a string-keyed mapping modelled as an
association list (`none` when the property is absent). -/
structure BCollection where
  name : String
  avalon : Option (List (String × String))
deriving DecidableEq

/-- The value `parse_container` returns for a container: the stored metadata
entries, the appended required `objectName` field (the collection's name), and
the appended transient `node` field (the collection itself). -/
structure ParsedContainer where
  data : List (String × String)
  objectName : String
  node : BCollection
deriving DecidableEq

/-- Embeds `parse_container(container, validate=True)` (`pipeline.py` lines
123-148).  `schema.validate` is abstracted by the predicate `schemaOk`; a
failing validation raises, modelled by `Except.error`.  When the collection
has no `"avalon"` entry or an empty one, the parse returns `None` before the
validation branch is reached. -/
def parse_container (schemaOk : ParsedContainer → Bool) (c : BCollection)
    (validate : Bool) : Except Unit (Option ParsedContainer) :=
  let data := c.avalon.getD []
  if data.isEmpty then .ok none
  else
    let parsed : ParsedContainer := { data := data, objectName := c.name, node := c }
    if validate then
      if schemaOk parsed then .ok (some parsed) else .error ()
    else .ok (some parsed)

/-- The metadata record `containerise` writes onto the new collection's
`"avalon"` property (`pipeline.py` lines 90-102). -/
def containerData (name nspace loader representation : String) : List (String × String) :=
  [("schema", "avalon-core:container-2.0"),
   ("id", "pyblish.avalon.container"),
   ("name", name),
   ("namespace", nspace),
   ("loader", loader),
   ("representation", representation)]

/-- The name of the parent collection every container is linked under. -/
def AVALON_CONTAINERS : String := "AVALON_CONTAINERS"

/-- The collections of `bpy.data` that the pipeline functions traverse. -/
structure BlenderData where
  collections : List BCollection
deriving DecidableEq

/-- Embeds `containerise(name, namespace, nodes, context, loader, suffix)`
(`pipeline.py` lines 64-120).  A new collection named
`"%s_%s_%s" % (namespace, name, suffix)` is created carrying the metadata
record; `loader` and `representation` arrive already stringified
(`str(loader)`, `str(context["representation"]["_id"])`).  The
`AVALON_CONTAINERS` collection is created when absent.  Object linking does
not affect `bpy.data.collections` and is not modelled.  Returns the new data
state and the created collection. -/
def containerise (st : BlenderData) (name nspace loader representation suffix : String) :
    BlenderData × BCollection :=
  let node_name := nspace ++ "_" ++ name ++ "_" ++ suffix
  let container : BCollection :=
    { name := node_name, avalon := some (containerData name nspace loader representation) }
  let withC : BlenderData := { collections := st.collections ++ [container] }
  let final : BlenderData :=
    if withC.collections.any (fun c => c.name == AVALON_CONTAINERS) then withC
    else { collections := withC.collections ++ [{ name := AVALON_CONTAINERS, avalon := none }] }
  (final, container)

/-- Embeds `ls()` (`pipeline.py` lines 151-168): every collection of
`bpy.data` that carries an `"avalon"` property whose `"id"` entry equals
`"pyblish.avalon.container"` is parsed with `parse_container` (with its
default `validate=True`) and yielded. -/
def ls (schemaOk : ParsedContainer → Bool) (st : BlenderData) :
    List (Except Unit (Option ParsedContainer)) :=
  st.collections.filterMap fun c =>
    match c.avalon with
    | none => none
    | some data =>
      if data.lookup "id" == some "pyblish.avalon.container" then
        some (parse_container schemaOk c true)
      else none

/-- An asset record as `AssetModel._add_hierarchy` reads it from the database:
its identifier, name, type, silo, parent reference, optional
`data["label"]`, and tag list. -/
structure Asset where
  aid : Nat
  name : String
  atype : String
  silo : String
  parent : Nat
  dataLabel : Option String
  tags : List String
deriving DecidableEq

instance : Inhabited Asset :=
  ⟨{ aid := 0, name := "", atype := "", silo := "", parent := 0,
     dataLabel := none, tags := [] }⟩

/-- A node of the asset model tree, carrying the fields `_add_hierarchy`
stores (`assetwidget.py` lines 211-218) and its ordered children. -/
inductive BNode : Type where
  | mk (aid : Nat) (name label atype tags : String) (deprecated : Bool)
       (children : List BNode) : BNode

def BNode.aid : BNode → Nat
  | .mk i _ _ _ _ _ _ => i

def BNode.name : BNode → String
  | .mk _ n _ _ _ _ _ => n

def BNode.label : BNode → String
  | .mk _ _ l _ _ _ _ => l

def BNode.atype : BNode → String
  | .mk _ _ _ t _ _ _ => t

def BNode.tags : BNode → String
  | .mk _ _ _ _ t _ _ => t

def BNode.deprecated : BNode → Bool
  | .mk _ _ _ _ _ d _ => d

def BNode.children : BNode → List BNode
  | .mk _ _ _ _ _ _ cs => cs

/-- The query `io.find({"type": "asset", "silo": silo, "parent": parent_id})`
(`assetwidget.py` lines 199-201) over a database modelled as the list of
records in query order. -/
def assetQuery (db : List Asset) (silo : String) (parent_id : Nat) : List Asset :=
  db.filter fun a => a.atype == "asset" && a.silo == silo && a.parent == parent_id

/-- The comma-joined tag string `", ".join(asset.get("tags", []))`. -/
def joinTags (tags : List String) : String := String.intercalate ", " tags

/-- The node `_add_hierarchy` builds for one asset record (lines 203-218),
given the already-built children: label falls back from `data["label"]` to
`name`, tags are comma-joined, and `deprecated` holds iff `"deprecated"` is
among the record's tags. -/
def mkAssetNode (a : Asset) (children : List BNode) : BNode :=
  BNode.mk a.aid a.name (a.dataLabel.getD a.name) a.atype
    (joinTags a.tags) (a.tags.contains "deprecated") children

/-- Embeds `AssetModel._add_hierarchy` (`assetwidget.py` lines 188-222): the
children attached under the parent with identifier `parent_id` are, in query
order, one node per record whose parent reference equals `parent_id`, each
node recursively carrying the hierarchy below its own identifier.  The root
call passes the project's identifier.  The Python recursion terminates only on
parent-reference chains that bottom out; `fuel` bounds the recursion depth and
any fuel at least the nesting depth computes the same tree. -/
def add_hierarchy (db : List Asset) (silo : String) : Nat → Nat → List BNode
  | 0, _ => []
  | fuel + 1, parent_id =>
      (assetQuery db silo parent_id).map fun a =>
        mkAssetNode a (add_hierarchy db silo fuel a.aid)

/-- Fuel-bounded groundedness of a record's parent-reference chain: within
`fuel` steps the chain starting at `a` reaches the project identifier `pid`,
stepping at each point through any database record whose identifier equals the
current parent reference.  A chain that bottoms out at all does so within
`db.length` steps, since a minimal chain never repeats a record, so
`groundedB db pid db.length` is groundedness pure and simple — no ordering of
the records in the collection is assumed. -/
def groundedB (db : List Asset) (pid : Nat) : Nat → Asset → Bool
  | 0, _ => false
  | fuel + 1, a =>
      a.parent == pid || db.any fun b => b.aid == a.parent && groundedB db pid fuel b

/-- Occurrence of a node anywhere in a forest of `BNode`s: either as a direct
element or inside the children of some element.  Used to state that every
asset record ends up attached somewhere in the built hierarchy. -/
inductive OccursIn (x : BNode) : List BNode → Prop where
  | here {forest : List BNode} : x ∈ forest → OccursIn x forest
  | inside {forest : List BNode} (y : BNode) :
      y ∈ forest → OccursIn x y.children → OccursIn x forest

/-! ### Traversal lemmas -/

theorem sizeL_append (l1 l2 : List QTree) :
    QTree.size.sizeL (l1 ++ l2) = QTree.size.sizeL l1 + QTree.size.sizeL l2 := by
  induction l1 with
  | nil => simp [QTree.size.sizeL]
  | cons t rest ih => simp [QTree.size.sizeL, ih]; omega

theorem size_pos (t : QTree) : 1 ≤ t.size := by
  cases t with
  | node k cs => simp [QTree.size]

theorem bfsFuel_nil (f : Nat) : bfsFuel f [] = [] := by
  cases f <;> simp [bfsFuel]

theorem bfsFuel_congr (f : Nat) : ∀ (q : List QTree) (g : Nat),
    QTree.size.sizeL q ≤ f → QTree.size.sizeL q ≤ g → bfsFuel f q = bfsFuel g q := by
  induction f using Nat.strong_induction_on with
  | _ f ih =>
    intro q g hf hg
    match q with
    | [] => rw [bfsFuel_nil, bfsFuel_nil]
    | t :: rest =>
      have h1 : 1 ≤ t.size := size_pos t
      have hq : QTree.size.sizeL (t :: rest) = t.size + QTree.size.sizeL rest := by
        simp [QTree.size.sizeL]
      obtain ⟨f, rfl⟩ : ∃ f0, f = f0 + 1 := ⟨f - 1, by omega⟩
      obtain ⟨g, rfl⟩ : ∃ g0, g = g0 + 1 := ⟨g - 1, by omega⟩
      simp only [bfsFuel]
      congr 1
      have hsz : QTree.size.sizeL (rest ++ t.children) =
          QTree.size.sizeL rest + QTree.size.sizeL t.children := sizeL_append rest t.children
      have hc : t.size = 1 + QTree.size.sizeL t.children := by
        cases t with
        | node k cs => simp [QTree.size, QTree.children]
      exact ih f (by omega) (rest ++ t.children) g (by omega) (by omega)

theorem bfsWalk_nil : bfsWalk [] = [] := by
  simp [bfsWalk, bfsFuel_nil]

theorem bfsWalk_cons (t : QTree) (rest : List QTree) :
    bfsWalk (t :: rest) = t :: bfsWalk (rest ++ t.children) := by
  have hc : t.size = 1 + QTree.size.sizeL t.children := by
    cases t with
    | node k cs => simp [QTree.size, QTree.children]
  have hq : QTree.size.sizeL (t :: rest) = t.size + QTree.size.sizeL rest := by
    simp [QTree.size.sizeL]
  have hsz : QTree.size.sizeL (rest ++ t.children) =
      QTree.size.sizeL rest + QTree.size.sizeL t.children := sizeL_append rest t.children
  rw [bfsWalk, bfsWalk, hq, hc]
  rw [show 1 + QTree.size.sizeL t.children + QTree.size.sizeL rest =
      (QTree.size.sizeL rest + QTree.size.sizeL t.children) + 1 by omega]
  simp only [bfsFuel]
  congr 1
  exact bfsFuel_congr _ _ _ (by omega) (by omega)

theorem bfsWalk_append (xs : List QTree) : ∀ ys : List QTree,
    bfsWalk (xs ++ ys) = xs ++ bfsWalk (ys ++ xs.flatMap QTree.children) := by
  induction xs with
  | nil => intro ys; simp
  | cons t xs ih =>
    intro ys
    rw [List.cons_append, bfsWalk_cons, List.append_assoc, ih (ys ++ t.children)]
    simp [List.append_assoc]

theorem bfsWalk_levels (q : List QTree) :
    bfsWalk q = q ++ bfsWalk (q.flatMap QTree.children) := by
  have h := bfsWalk_append q []
  simpa using h

theorem toListF_append (l1 l2 : List QTree) :
    QTree.toList.toListF (l1 ++ l2) = QTree.toList.toListF l1 ++ QTree.toList.toListF l2 := by
  induction l1 with
  | nil => simp [QTree.toList.toListF]
  | cons t rest ih => simp [QTree.toList.toListF, ih]

theorem toList_unfold (t : QTree) :
    t.toList = t :: QTree.toList.toListF t.children := by
  cases t with
  | node k cs => simp [QTree.toList, QTree.children]

theorem bfsWalk_perm (n : Nat) : ∀ q : List QTree, QTree.size.sizeL q ≤ n →
    (bfsWalk q).Perm (QTree.toList.toListF q) := by
  induction n using Nat.strong_induction_on with
  | _ n ih =>
    intro q hn
    match q with
    | [] => rw [bfsWalk_nil]; simp [QTree.toList.toListF]
    | t :: rest =>
      have h1 : 1 ≤ t.size := size_pos t
      have hq : QTree.size.sizeL (t :: rest) = t.size + QTree.size.sizeL rest := by
        simp [QTree.size.sizeL]
      have hc : t.size = 1 + QTree.size.sizeL t.children := by
        cases t with
        | node k cs => simp [QTree.size, QTree.children]
      have hsz : QTree.size.sizeL (rest ++ t.children) =
          QTree.size.sizeL rest + QTree.size.sizeL t.children := sizeL_append rest t.children
      obtain ⟨n, rfl⟩ : ∃ n0, n = n0 + 1 := ⟨n - 1, by omega⟩
      rw [bfsWalk_cons]
      have hper := ih n (by omega) (rest ++ t.children) (by omega)
      rw [toListF_append] at hper
      have h2 : (bfsWalk (rest ++ t.children)).Perm
          (QTree.toList.toListF t.children ++ QTree.toList.toListF rest) :=
        hper.trans List.perm_append_comm
      have hrw : QTree.toList.toListF (t :: rest) =
          t :: (QTree.toList.toListF t.children ++ QTree.toList.toListF rest) := by
        simp only [QTree.toList.toListF, toList_unfold, List.cons_append]
      rw [hrw]
      exact h2.cons t

/-- C6: `_iter_model_rows` yields every node reachable from the root exactly
once (the full-traversal output is a permutation of the preorder node listing,
in which each node of the tree occurs exactly once), it is breadth-first via a
work queue (each queue is emitted as one level, followed by the walk of the
queue's concatenated children), and the root itself is included in the yield
exactly when `include_root` is set (the non-root variant is the same sequence
without the leading root).  The traversal is a pure function of the tree, so
it is deterministic and shares no iteration state across calls. -/
theorem iter_model_rows_spec (root : QTree) :
    (iter_model_rows root true).Perm root.toList ∧
    iter_model_rows root true = root :: iter_model_rows root false ∧
    ∀ q : List QTree, bfsWalk q = q ++ bfsWalk (q.flatMap QTree.children) := by
  refine ⟨?_, ?_, fun q => bfsWalk_levels q⟩
  · have h := bfsWalk_perm (QTree.size.sizeL [root]) [root] le_rfl
    have : QTree.toList.toListF [root] = root.toList := by
      simp [QTree.toList.toListF]
    rw [this] at h
    simpa [iter_model_rows] using h
  · show bfsWalk [root] = root :: bfsWalk root.children
    rw [bfsWalk_cons]
    simp

/-! ### Capture and restore lemmas -/

theorem mem_zipKeys_iff (ns : List QTree) (bs : List Bool) (k : Nat) :
    k ∈ (ns.zip bs).filterMap (fun p => if p.2 then some p.1.key else none) ↔
      ∃ i, ∃ h1 : i < ns.length, ∃ h2 : i < bs.length, bs[i] = true ∧ (ns[i]).key = k := by
  rw [List.mem_filterMap]
  constructor
  · rintro ⟨p, hp, hf⟩
    by_cases h2 : p.2 = true
    · simp only [h2, if_true, Option.some.injEq] at hf
      rw [List.mem_iff_getElem] at hp
      obtain ⟨i, hi, hpi⟩ := hp
      rw [List.length_zip] at hi
      have h1 : i < ns.length := lt_of_lt_of_le hi (min_le_left _ _)
      have h2' : i < bs.length := lt_of_lt_of_le hi (min_le_right _ _)
      rw [List.getElem_zip] at hpi
      refine ⟨i, h1, h2', ?_, ?_⟩
      · rw [show bs[i] = p.2 by rw [← hpi]]
        exact h2
      · rw [show ns[i] = p.1 by rw [← hpi]]
        exact hf
    · simp [h2] at hf
  · rintro ⟨i, h1, h2, hb, hk⟩
    refine ⟨(ns[i], bs[i]), ?_, ?_⟩
    · rw [List.mem_iff_getElem]
      exact ⟨i, by rw [List.length_zip]; omega, by rw [List.getElem_zip]⟩
    · simp [hb, hk]

theorem zipKeys_eq_nil_iff (ns : List QTree) (bs : List Bool) :
    (ns.zip bs).filterMap (fun p => if p.2 then some p.1.key else none) = [] ↔
      ∀ i, i < ns.length → ∀ h2 : i < bs.length, bs[i] = false := by
  rw [List.eq_nil_iff_forall_not_mem]
  constructor
  · intro h i h1 h2
    by_contra hb
    rw [Bool.not_eq_false] at hb
    exact h ((ns[i]).key) ((mem_zipKeys_iff ns bs _).mpr ⟨i, h1, h2, hb, rfl⟩)
  · intro h k hk
    obtain ⟨i, h1, h2, hb, _⟩ := (mem_zipKeys_iff ns bs k).mp hk
    rw [h i h1 h2] at hb
    exact Bool.false_ne_true hb

theorem lastMatchAux_of_no_match (v : Nat) :
    ∀ (ns : List QTree) (s : Nat) (acc : Option Nat), (∀ n ∈ ns, n.key ≠ v) →
      lastMatchAux v s acc ns = acc := by
  intro ns
  induction ns with
  | nil => intro s acc _; rfl
  | cons n rest ih =>
    intro s acc h
    have hn : n.key ≠ v := h n (List.mem_cons_self n rest)
    simp only [lastMatchAux, beq_iff_eq, if_neg hn]
    exact ih (s + 1) acc fun x hx => h x (List.mem_cons_of_mem n hx)

theorem lastMatchAux_last_match (v : Nat) :
    ∀ (ns : List QTree) (s : Nat) (acc : Option Nat), (∃ n ∈ ns, n.key = v) →
      ∃ j, ∃ hj : j < ns.length, lastMatchAux v s acc ns = some (s + j) ∧
        (ns[j]).key = v ∧ ∀ i, ∀ hi : i < ns.length, j < i → (ns[i]).key ≠ v := by
  intro ns
  induction ns with
  | nil => rintro s acc ⟨n, hn, _⟩; exact absurd hn (List.not_mem_nil n)
  | cons n rest ih =>
    intro s acc hex
    by_cases hrest : ∃ x ∈ rest, x.key = v
    · obtain ⟨j, hj, heq, hkey, hlast⟩ := ih (s + 1) (if n.key == v then some s else acc) hrest
      refine ⟨j + 1, by simpa using Nat.succ_lt_succ hj, ?_, ?_, ?_⟩
      · simp only [lastMatchAux]
        rw [heq]
        congr 1
        omega
      · simpa using hkey
      · intro i hi hji
        obtain ⟨i, rfl⟩ : ∃ i0, i = i0 + 1 := ⟨i - 1, by omega⟩
        simp only [List.getElem_cons_succ]
        exact hlast i (by simpa using Nat.lt_of_succ_lt_succ hi) (by omega)
    · have hn : n.key = v := by
        obtain ⟨x, hx, hxv⟩ := hex
        rcases List.mem_cons.mp hx with h | h
        · rw [← h]; exact hxv
        · exact absurd ⟨x, h, hxv⟩ hrest
      push_neg at hrest
      refine ⟨0, by simp, ?_, by simpa using hn, ?_⟩
      · simp only [lastMatchAux, beq_iff_eq, if_pos hn]
        rw [lastMatchAux_of_no_match v rest (s + 1) (some s) hrest, Nat.add_zero]
      · intro i hi h0
        obtain ⟨i, rfl⟩ : ∃ i0, i = i0 + 1 := ⟨i - 1, by omega⟩
        simp only [List.getElem_cons_succ]
        exact hrest _ (List.getElem_mem _)

/-! ### Claims about the restore passes -/

/-- C3: on every exit path of the wrapped action (raising or not), when the
captured ExpandedSet is nonempty, `preserve_expanded_rows` rebuilds the whole
expansion assignment of the new tree: every node is expanded iff its
DisplayKey is a member of the captured set (so non-members are explicitly
collapsed), no other view state is touched, and an exception of the action
then propagates. -/
theorem restore_expanded_sets_membership (m : Model) (st : ViewState) (m' : Model)
    (st' : ViewState) (raises : Bool) (h : capturedExpandedKeys m st ≠ []) :
    (preserve_expanded_rows m st m' st' raises).1.expanded.length = (rows m').length ∧
    (∀ i, ∀ hi : i < (rows m').length,
      ((preserve_expanded_rows m st m' st' raises).1.expanded.getD i false = true ↔
        ((rows m')[i]).key ∈ capturedExpandedKeys m st)) ∧
    (preserve_expanded_rows m st m' st' raises).1.selected = st'.selected ∧
    (preserve_expanded_rows m st m' st' raises).1.current = st'.current ∧
    (preserve_expanded_rows m st m' st' raises).2 = raises := by
  have hne : (capturedExpandedKeys m st).isEmpty = false := by
    rw [List.isEmpty_eq_false_iff_exists_mem]
    obtain ⟨k, hk⟩ := List.exists_mem_of_ne_nil _ h
    exact ⟨k, hk⟩
  simp only [preserve_expanded_rows, hne, Bool.false_eq_true, if_false]
  refine ⟨by simp [expandRestore], ?_, by trivial, by trivial, by trivial⟩
  intro i hi
  have hlen : i < (expandRestore (capturedExpandedKeys m st) (rows m')).length := by
    simpa [expandRestore] using hi
  rw [List.getD_eq_getElem _ _ hlen]
  simp only [expandRestore, List.getElem_map]
  exact List.elem_iff

/-- Witness for C3 at a concrete input: two top-level rows with keys 1 and 2,
key 1 expanded before a raising rebuild that reset the view. -/
theorem restore_expanded_sets_membership_witness :
    capturedExpandedKeys [QTree.node 1 [], QTree.node 2 []]
      { expanded := [true, false], selected := [false, false], current := none } ≠ [] ∧
    ((preserve_expanded_rows [QTree.node 1 [], QTree.node 2 []]
        { expanded := [true, false], selected := [false, false], current := none }
        [QTree.node 1 [], QTree.node 2 []]
        { expanded := [false, false], selected := [false, false], current := none }
        true).1.expanded.length = (rows [QTree.node 1 [], QTree.node 2 []]).length ∧
    (∀ i, ∀ hi : i < (rows [QTree.node 1 [], QTree.node 2 []]).length,
      ((preserve_expanded_rows [QTree.node 1 [], QTree.node 2 []]
        { expanded := [true, false], selected := [false, false], current := none }
        [QTree.node 1 [], QTree.node 2 []]
        { expanded := [false, false], selected := [false, false], current := none }
        true).1.expanded.getD i false = true ↔
        ((rows [QTree.node 1 [], QTree.node 2 []])[i]).key ∈
          capturedExpandedKeys [QTree.node 1 [], QTree.node 2 []]
            { expanded := [true, false], selected := [false, false], current := none })) ∧
    (preserve_expanded_rows [QTree.node 1 [], QTree.node 2 []]
        { expanded := [true, false], selected := [false, false], current := none }
        [QTree.node 1 [], QTree.node 2 []]
        { expanded := [false, false], selected := [false, false], current := none }
        true).1.selected = [false, false] ∧
    (preserve_expanded_rows [QTree.node 1 [], QTree.node 2 []]
        { expanded := [true, false], selected := [false, false], current := none }
        [QTree.node 1 [], QTree.node 2 []]
        { expanded := [false, false], selected := [false, false], current := none }
        true).1.current = none ∧
    (preserve_expanded_rows [QTree.node 1 [], QTree.node 2 []]
        { expanded := [true, false], selected := [false, false], current := none }
        [QTree.node 1 [], QTree.node 2 []]
        { expanded := [false, false], selected := [false, false], current := none }
        true).2 = true) :=
  ⟨by decide,
   restore_expanded_sets_membership _ _ _
     { expanded := [false, false], selected := [false, false], current := none }
     true (by decide)⟩

/-- C5: when no node was expanded before the rebuild, `preserve_expanded_rows`
performs no restore traversal and returns the post-action state untouched, and
when no node was selected before the rebuild, `preserve_selection` skips
capture and restore entirely and likewise returns the post-action state
untouched — zero mutations of expansion, selection, or current-node state. -/
theorem empty_state_restore_noop (m : Model) (st : ViewState) (m' : Model)
    (st' : ViewState) (raises : Bool)
    (hexp : ∀ i, i < st.expanded.length → st.expanded.getD i false = false)
    (hsel : ∀ i, i < st.selected.length → st.selected.getD i false = false) :
    preserve_expanded_rows m st m' st' raises = (st', false) ∧
    preserve_selection m st m' st' raises true = (st', raises) := by
  have hcap : capturedExpandedKeys m st = [] := by
    rw [capturedExpandedKeys, zipKeys_eq_nil_iff]
    intro i h1 h2
    have := hexp i h2
    rwa [List.getD_eq_getElem _ _ h2] at this
  have hselcap : selectedKeys m st = [] := by
    rw [selectedKeys, zipKeys_eq_nil_iff]
    intro i h1 h2
    have := hsel i h2
    rwa [List.getD_eq_getElem _ _ h2] at this
  constructor
  · simp [preserve_expanded_rows, hcap]
  · simp [preserve_selection, hselcap]

/-- Witness for C5: a two-row tree with nothing expanded and nothing selected
(but with a current node), around a raising rebuild. -/
theorem empty_state_restore_noop_witness :
    (∀ i, i < ([false, false] : List Bool).length →
        ([false, false] : List Bool).getD i false = false) ∧
    preserve_expanded_rows [QTree.node 1 [], QTree.node 2 []]
      { expanded := [false, false], selected := [false, false], current := some 0 }
      [QTree.node 1 []]
      { expanded := [false], selected := [false], current := none } true
      = ({ expanded := [false], selected := [false], current := none }, false) ∧
    preserve_selection [QTree.node 1 [], QTree.node 2 []]
      { expanded := [false, false], selected := [false, false], current := some 0 }
      [QTree.node 1 []]
      { expanded := [false], selected := [false], current := none } true true
      = ({ expanded := [false], selected := [false], current := none }, true) :=
  ⟨by decide,
   (empty_state_restore_noop _ _ _ _ true (by decide) (by decide)).1,
   (empty_state_restore_noop _ _ _ _ true (by decide) (by decide)).2⟩

/-- C9: when the wrapped action raises, `preserve_expanded_rows` suppresses
the exception exactly when the captured expanded set is empty — the `return`
in the `finally` block makes the context manager exit normally and hand the
caller the post-action state; when at least one node was expanded, the
exception propagates (after the restore pass has run). -/
theorem expanded_rows_exception_gate (m : Model) (st : ViewState) (m' : Model)
    (st' : ViewState) :
    (capturedExpandedKeys m st = [] →
      preserve_expanded_rows m st m' st' true = (st', false)) ∧
    (capturedExpandedKeys m st ≠ [] →
      (preserve_expanded_rows m st m' st' true).2 = true) := by
  constructor
  · intro h
    simp [preserve_expanded_rows, h]
  · intro h
    have hne : (capturedExpandedKeys m st).isEmpty = false := by
      rw [List.isEmpty_eq_false_iff_exists_mem]
      obtain ⟨k, hk⟩ := List.exists_mem_of_ne_nil _ h
      exact ⟨k, hk⟩
    simp [preserve_expanded_rows, hne]

/-- Witness for C9: with nothing expanded the raising rebuild's exception is
swallowed; with one row expanded it propagates. -/
theorem expanded_rows_exception_gate_witness :
    (capturedExpandedKeys [QTree.node 1 []]
        { expanded := [false], selected := [false], current := none } = [] ∧
      preserve_expanded_rows [QTree.node 1 []]
        { expanded := [false], selected := [false], current := none }
        [QTree.node 1 []]
        { expanded := [false], selected := [false], current := none } true
        = ({ expanded := [false], selected := [false], current := none }, false)) ∧
    (capturedExpandedKeys [QTree.node 1 []]
        { expanded := [true], selected := [false], current := none } ≠ [] ∧
      (preserve_expanded_rows [QTree.node 1 []]
        { expanded := [true], selected := [false], current := none }
        [QTree.node 1 []]
        { expanded := [false], selected := [false], current := none } true).2 = true) :=
  ⟨⟨by decide,
    (expanded_rows_exception_gate _ _ _
      { expanded := [false], selected := [false], current := none }).1 (by decide)⟩,
   ⟨by decide,
    (expanded_rows_exception_gate _ _ _
      { expanded := [false], selected := [false], current := none }).2 (by decide)⟩⟩

/-- C2 (amended): during the restore pass of `preserve_selection` (which runs
when some row was selected), if the captured current-key is truthy (nonzero)
then the current index ends on a node of the rebuilt tree whose DisplayKey
equals that key (the last such node in traversal order) — with no hypothesis
about whether that key belongs to the captured selected set, so the
restoration of the current node is independent of selection membership; and
with `current_index=False` no current node is ever forced: the current index
is exactly what the rebuild left.  (The original claim fails for a falsy
captured key, see the counterexample.) -/
theorem current_restore_independent (m : Model) (st : ViewState) (m' : Model)
    (st' : ViewState) (raises : Bool) :
    (selectedKeys m st ≠ [] → ∀ v, currentKeyOf m st = some v → v ≠ 0 →
      (∃ n ∈ rows m', n.key = v) →
      ∃ j, ∃ hj : j < (rows m').length,
        (preserve_selection m st m' st' raises true).1.current = some j ∧
        ((rows m')[j]).key = v ∧
        ∀ i, ∀ hi : i < (rows m').length, j < i → ((rows m')[i]).key ≠ v) ∧
    (preserve_selection m st m' st' raises false).1.current = st'.current := by
  constructor
  · intro hsel v hcur hv hex
    have hne : (selectedKeys m st).isEmpty = false := by
      rw [List.isEmpty_eq_false_iff_exists_mem]
      obtain ⟨k, hk⟩ := List.exists_mem_of_ne_nil _ hsel
      exact ⟨k, hk⟩
    obtain ⟨j, hj, heq, hkey, hlast⟩ :=
      lastMatchAux_last_match v (rows m') 0 st'.current hex
    refine ⟨j, hj, ?_, hkey, hlast⟩
    simp only [preserve_selection, hne, Bool.false_eq_true, if_false, if_true]
    rw [currentRestore.eq_def, hcur]
    simp only [if_neg hv]
    rw [heq, Nat.zero_add]
  · by_cases hne : (selectedKeys m st).isEmpty
    · simp [preserve_selection, hne]
    · simp only [Bool.not_eq_true] at hne
      simp [preserve_selection, hne, currentRestore]

/-- Witness for C2: rows with keys 1 and 2; key 1 selected, current on key 2 —
the current key is not in the selected set, yet it is restored; with
`current_index=False` the current index stays as the rebuild left it. -/
theorem current_restore_independent_witness :
    (selectedKeys [QTree.node 1 [], QTree.node 2 []]
        { expanded := [false, false], selected := [true, false], current := some 1 } ≠ [] ∧
     currentKeyOf [QTree.node 1 [], QTree.node 2 []]
        { expanded := [false, false], selected := [true, false], current := some 1 } = some 2 ∧
     (2 : Nat) ≠ 0 ∧
     (∃ n ∈ rows [QTree.node 1 [], QTree.node 2 []], n.key = 2)) ∧
    (∃ j, ∃ hj : j < (rows [QTree.node 1 [], QTree.node 2 []]).length,
      (preserve_selection [QTree.node 1 [], QTree.node 2 []]
        { expanded := [false, false], selected := [true, false], current := some 1 }
        [QTree.node 1 [], QTree.node 2 []]
        { expanded := [false, false], selected := [false, false], current := none }
        false true).1.current = some j ∧
      ((rows [QTree.node 1 [], QTree.node 2 []])[j]).key = 2 ∧
      ∀ i, ∀ hi : i < (rows [QTree.node 1 [], QTree.node 2 []]).length, j < i →
        ((rows [QTree.node 1 [], QTree.node 2 []])[i]).key ≠ 2) ∧
    (preserve_selection [QTree.node 1 [], QTree.node 2 []]
        { expanded := [false, false], selected := [true, false], current := some 1 }
        [QTree.node 1 [], QTree.node 2 []]
        { expanded := [false, false], selected := [false, false], current := none }
        false false).1.current = none :=
  ⟨⟨by decide, by decide, by decide, by decide⟩,
   (current_restore_independent _ _ _
      { expanded := [false, false], selected := [false, false], current := none }
      false).1 (by decide) 2 (by decide) (by decide) (by decide),
   (current_restore_independent _
      { expanded := [false, false], selected := [true, false], current := some 1 } _
      { expanded := [false, false], selected := [false, false], current := none }
      false).2⟩

/-- Counterexample to C2 as stated: rows with keys 0 and 1, key 1 selected,
current on the key-0 node.  The restore pass runs (the selection is
nonempty), a node of the rebuilt tree has DisplayKey equal to the captured
current-key 0, yet it is not made current: the Python guard
`if current_index_value and ...` treats the captured falsy key as "no
current", so the current index stays unset. -/
theorem current_restore_falsy_counterexample :
    selectedKeys [QTree.node 0 [], QTree.node 1 []]
      { expanded := [false, false], selected := [false, true], current := some 0 } ≠ [] ∧
    currentKeyOf [QTree.node 0 [], QTree.node 1 []]
      { expanded := [false, false], selected := [false, true], current := some 0 } = some 0 ∧
    ((rows [QTree.node 0 [], QTree.node 1 []]).getD 0 default).key = 0 ∧
    (preserve_selection [QTree.node 0 [], QTree.node 1 []]
      { expanded := [false, false], selected := [false, true], current := some 0 }
      [QTree.node 0 [], QTree.node 1 []]
      { expanded := [false, false], selected := [false, false], current := none }
      false true).1.current = none := by
  refine ⟨by decide, by decide, by decide, by decide⟩

/-- C4 (amended): the restore loop of `preserve_selection` contains no
per-node exception handler, so a failure raised while restoring one node
aborts the restoration of all remaining nodes (the loop stops at the first
failing selected row); the companion `maintained_selection` procedure, by
contrast, on every exit path first deselects all currently selected objects
(the post-action selection plays no part in the outcome), then reselects each
previously selected object individually with a per-object `try/except` that
tolerates failures — so exactly the previously selected objects that still
exist end up selected — and finally restores the previously active object. -/
theorem restore_failure_semantics :
    (∀ (failAt selKeys : List Nat) (rest : List (Nat × QTree)) (sel : List Bool)
        (i : Nat) (n : QTree),
      selKeys.contains n.key = true → failAt.contains i = true →
      selectRestoreFallible failAt selKeys ((i, n) :: rest) sel = .error i) ∧
    (∀ pre post : Scene,
      (maintained_selection pre post).selected =
        pre.selected.filter (fun o => post.objs.contains o) ∧
      (maintained_selection pre post).active = pre.active ∧
      (maintained_selection pre post).objs = post.objs) := by
  constructor
  · intro failAt selKeys rest sel i n hsel hfail
    have h1 : n.key ∈ selKeys := by simpa using hsel
    have h2 : i ∈ failAt := by simpa using hfail
    simp [selectRestoreFallible, h1, h2]
  · intro pre post
    by_cases h : pre.selected.isEmpty
    · rw [List.isEmpty_iff] at h
      refine ⟨?_, ?_, ?_⟩ <;> simp [maintained_selection, h]
    · simp only [Bool.not_eq_true] at h
      refine ⟨?_, ?_, ?_⟩ <;> simp [maintained_selection, h]

/-- Witness for C4 (amended): a selected row whose restoration the host
rejects aborts the loop; `maintained_selection` with one surviving and one
deleted previously-selected object reselects exactly the survivor and
restores the previous active object. -/
theorem restore_failure_semantics_witness :
    (([0] : List Nat).contains 0 = true ∧ ([1, 2] : List Nat).contains 1 = true ∧
      selectRestoreFallible [0] [1, 2] [(0, QTree.node 1 []), (1, QTree.node 2 [])]
        [false, false] = .error 0) ∧
    ((maintained_selection { objs := [10, 11], selected := [10, 11], active := some 10 }
        { objs := [11], selected := [11], active := none }).selected =
      ([10, 11].filter fun o => ([11] : List Nat).contains o) ∧
     (maintained_selection { objs := [10, 11], selected := [10, 11], active := some 10 }
        { objs := [11], selected := [11], active := none }).active = some 10 ∧
     (maintained_selection { objs := [10, 11], selected := [10, 11], active := some 10 }
        { objs := [11], selected := [11], active := none }).objs = [11]) :=
  ⟨⟨by decide, by decide,
    restore_failure_semantics.1 [0] [1, 2] [(1, QTree.node 2 [])] [false, false] 0
      (QTree.node 1 []) (by decide) (by decide)⟩,
   restore_failure_semantics.2
     { objs := [10, 11], selected := [10, 11], active := some 10 }
     { objs := [11], selected := [11], active := none }⟩

/-- Counterexample to C4 as stated for `preserve_selection`: two rows with
keys 1 and 2, both keys captured as selected, and the host rejecting the
restore of the row at position 0.  The claim says the failure is caught and
the loop continues to the next node; the loop actually aborts with the
exception after the first row, so the key-2 row at position 1 is never
reselected. -/
theorem restore_failure_counterexample :
    selectRestoreFallible [0] [1, 2] [(0, QTree.node 1 []), (1, QTree.node 2 [])]
      [false, false] = .error 0 := rfl

/-- C10: a collection carrying no `"avalon"` metadata entry, or an empty one,
makes `parse_container` return `None` before any schema validation runs —
for every validator behaviour and even with `validate=True` the result is
`None` and no validation failure can surface; validation runs exactly when
nonempty metadata is present, with its verdict deciding between the parsed
container and a raised validation error. -/
theorem parse_container_empty_guard (schemaOk : ParsedContainer → Bool) :
    (∀ (c : BCollection) (validate : Bool),
      c.avalon = none ∨ c.avalon = some [] →
      parse_container schemaOk c validate = .ok none) ∧
    (∀ (c : BCollection) (data : List (String × String)),
      c.avalon = some data → data ≠ [] →
      parse_container schemaOk c true =
        if schemaOk { data := data, objectName := c.name, node := c } = true then
          .ok (some { data := data, objectName := c.name, node := c })
        else .error ()) := by
  constructor
  · rintro c validate (h | h) <;> simp [parse_container, h]
  · intro c data h hne
    have : data.isEmpty = false := by
      rw [List.isEmpty_eq_false_iff_exists_mem]
      obtain ⟨x, hx⟩ := List.exists_mem_of_ne_nil _ hne
      exact ⟨x, hx⟩
    simp only [parse_container, h, Option.getD_some, this, Bool.false_eq_true, if_false,
      if_true]

/-- Witness for C10: an absent and an empty `"avalon"` entry both parse to
`None` under an always-failing validator; a nonempty entry consults the
validator. -/
theorem parse_container_empty_guard_witness :
    (parse_container (fun _ => false) { name := "c1", avalon := none } true = .ok none) ∧
    (parse_container (fun _ => false) { name := "c2", avalon := some [] } true = .ok none) ∧
    (parse_container (fun _ => false)
        { name := "c3", avalon := some [("id", "x")] } true = .error ()) :=
  ⟨(parse_container_empty_guard (fun _ => false)).1 { name := "c1", avalon := none } true
      (Or.inl rfl),
   (parse_container_empty_guard (fun _ => false)).1 { name := "c2", avalon := some [] } true
      (Or.inr rfl),
   (parse_container_empty_guard (fun _ => false)).2
      { name := "c3", avalon := some [("id", "x")] } [("id", "x")] rfl (by decide)⟩

/-- C8: writing container metadata with `containerise` and reading it back
through `ls` round-trips exactly.  The created collection is named
`namespace_name_CON` and carries exactly the written schema, id, name,
namespace, loader and representation entries; `ls` (which keeps only
collections whose metadata id is `"pyblish.avalon.container"`) yields for it a
parse result whose data equals the written record field for field, whose
derived `objectName` equals the created collection's name, and whose transient
`node` field is the collection itself. -/
theorem container_round_trip (st : BlenderData) (name nspace loader rep : String)
    (schemaOk : ParsedContainer → Bool)
    (hok : schemaOk
        { data := containerData name nspace loader rep,
          objectName := nspace ++ "_" ++ name ++ "_" ++ "CON",
          node := { name := nspace ++ "_" ++ name ++ "_" ++ "CON",
                    avalon := some (containerData name nspace loader rep) } } = true) :
    (containerise st name nspace loader rep "CON").2.name
        = nspace ++ "_" ++ name ++ "_" ++ "CON" ∧
    (containerise st name nspace loader rep "CON").2.avalon
        = some (containerData name nspace loader rep) ∧
    Except.ok (some
        { data := containerData name nspace loader rep,
          objectName := nspace ++ "_" ++ name ++ "_" ++ "CON",
          node := (containerise st name nspace loader rep "CON").2 })
      ∈ ls schemaOk (containerise st name nspace loader rep "CON").1 ∧
    (containerData name nspace loader rep).lookup "schema" = some "avalon-core:container-2.0" ∧
    (containerData name nspace loader rep).lookup "id" = some "pyblish.avalon.container" ∧
    (containerData name nspace loader rep).lookup "name" = some name ∧
    (containerData name nspace loader rep).lookup "namespace" = some nspace ∧
    (containerData name nspace loader rep).lookup "loader" = some loader ∧
    (containerData name nspace loader rep).lookup "representation" = some rep := by
  have hparse : parse_container schemaOk
      { name := nspace ++ "_" ++ name ++ "_" ++ "CON",
        avalon := some (containerData name nspace loader rep) } true
      = if schemaOk
            { data := containerData name nspace loader rep,
              objectName := nspace ++ "_" ++ name ++ "_" ++ "CON",
              node := { name := nspace ++ "_" ++ name ++ "_" ++ "CON",
                        avalon := some (containerData name nspace loader rep) } } = true then
          Except.ok (some
            { data := containerData name nspace loader rep,
              objectName := nspace ++ "_" ++ name ++ "_" ++ "CON",
              node := { name := nspace ++ "_" ++ name ++ "_" ++ "CON",
                        avalon := some (containerData name nspace loader rep) } })
        else Except.error () := rfl
  refine ⟨rfl, rfl, ?_, ?_, ?_, ?_, ?_, ?_, ?_⟩
  · rw [ls, List.mem_filterMap]
    refine ⟨(containerise st name nspace loader rep "CON").2, ?_, ?_⟩
    · show (containerise st name nspace loader rep "CON").2
          ∈ (containerise st name nspace loader rep "CON").1.collections
      simp only [containerise]
      split
      · exact List.mem_append_right _ (List.mem_singleton.mpr rfl)
      · exact List.mem_append_left _
          (List.mem_append_right _ (List.mem_singleton.mpr rfl))
    · show (if (containerData name nspace loader rep).lookup "id"
            == some "pyblish.avalon.container" then
          some (parse_container schemaOk (containerise st name nspace loader rep "CON").2 true)
        else none) = _
      rw [if_pos (by rw [containerData]; rfl)]
      show some (parse_container schemaOk
        { name := nspace ++ "_" ++ name ++ "_" ++ "CON",
          avalon := some (containerData name nspace loader rep) } true) = _
      rw [hparse, if_pos hok]
      rfl
  · rw [containerData]; rfl
  · rw [containerData]; rfl
  · rw [containerData]; rfl
  · rw [containerData]; rfl
  · rw [containerData]; rfl
  · rw [containerData]; rfl

/-- Witness for C8 at concrete values, with a validator accepting everything. -/
theorem container_round_trip_witness :
    ((fun (_ : ParsedContainer) => true)
        { data := containerData "model" "hero_01" "ModelLoader" "5af",
          objectName := "hero_01" ++ "_" ++ "model" ++ "_" ++ "CON",
          node := { name := "hero_01" ++ "_" ++ "model" ++ "_" ++ "CON",
                    avalon := some (containerData "model" "hero_01" "ModelLoader" "5af") } }
        = true) ∧
    ((containerise { collections := [] } "model" "hero_01" "ModelLoader" "5af" "CON").2.name
        = "hero_01" ++ "_" ++ "model" ++ "_" ++ "CON" ∧
    (containerise { collections := [] } "model" "hero_01" "ModelLoader" "5af" "CON").2.avalon
        = some (containerData "model" "hero_01" "ModelLoader" "5af") ∧
    Except.ok (some
        { data := containerData "model" "hero_01" "ModelLoader" "5af",
          objectName := "hero_01" ++ "_" ++ "model" ++ "_" ++ "CON",
          node := (containerise { collections := [] }
            "model" "hero_01" "ModelLoader" "5af" "CON").2 })
      ∈ ls (fun _ => true)
          (containerise { collections := [] } "model" "hero_01" "ModelLoader" "5af" "CON").1 ∧
    (containerData "model" "hero_01" "ModelLoader" "5af").lookup "schema"
        = some "avalon-core:container-2.0" ∧
    (containerData "model" "hero_01" "ModelLoader" "5af").lookup "id"
        = some "pyblish.avalon.container" ∧
    (containerData "model" "hero_01" "ModelLoader" "5af").lookup "name" = some "model" ∧
    (containerData "model" "hero_01" "ModelLoader" "5af").lookup "namespace" = some "hero_01" ∧
    (containerData "model" "hero_01" "ModelLoader" "5af").lookup "loader" = some "ModelLoader" ∧
    (containerData "model" "hero_01" "ModelLoader" "5af").lookup "representation"
        = some "5af") :=
  ⟨rfl, container_round_trip { collections := [] } "model" "hero_01" "ModelLoader" "5af"
    (fun _ => true) rfl⟩

theorem OccursIn.trans {x y : BNode} {forest : List BNode}
    (hy : OccursIn y forest) (hx : OccursIn x y.children) : OccursIn x forest := by
  induction hy with
  | here h => exact OccursIn.inside _ h hx
  | inside z hz _ ih => exact OccursIn.inside z hz ih

/-- C7: `_add_hierarchy` assembles the tree so that, at every level, the
children attached under the node with identifier `parent_id` are exactly the
query results for that parent, in query order, one node per record, each node
recursively carrying the hierarchy below its own identifier (so every parent
node exists before — i.e. structurally contains — its children); each built
node's label falls back from `data["label"]` to the record's name, its tags
field is the comma-joined tag list, and its deprecated flag holds exactly when
`"deprecated"` is among the record's tags; and, provided every record is an
asset of the silo whose parent-reference chain bottoms out at the project's
identifier (groundedness — the records may come in any query order), every
record's node occurs in the tree built from the project root (records
parented to the project attach at the root). -/
theorem add_hierarchy_spec (db : List Asset) (silo : String) (pid : Nat)
    (htype : ∀ a ∈ db, a.atype = "asset" ∧ a.silo = silo)
    (hpar : ∀ a ∈ db, groundedB db pid db.length a = true) :
    (∀ fuel parent_id, add_hierarchy db silo (fuel + 1) parent_id =
      (assetQuery db silo parent_id).map fun a =>
        mkAssetNode a (add_hierarchy db silo fuel a.aid)) ∧
    (∀ (a : Asset) (children : List BNode),
      (mkAssetNode a children).label = a.dataLabel.getD a.name ∧
      (mkAssetNode a children).tags = joinTags a.tags ∧
      ((mkAssetNode a children).deprecated = true ↔ "deprecated" ∈ a.tags) ∧
      (mkAssetNode a children).aid = a.aid ∧
      (mkAssetNode a children).name = a.name ∧
      (mkAssetNode a children).children = children) ∧
    (∀ a ∈ db, ∃ fuel,
      OccursIn (mkAssetNode a (add_hierarchy db silo fuel a.aid))
        (add_hierarchy db silo (db.length + 1) pid)) := by
  refine ⟨fun fuel parent_id => rfl,
    fun a children => ⟨rfl, rfl, List.elem_iff, rfl, rfl, rfl⟩, ?_⟩
  have hquery : ∀ a ∈ db, ∀ q : Nat, a.parent = q → a ∈ assetQuery db silo q := by
    intro a ha q hq
    rw [assetQuery, List.mem_filter]
    refine ⟨ha, ?_⟩
    obtain ⟨h1, h2⟩ := htype a ha
    simp [h1, h2, hq]
  have main : ∀ f, f ≤ db.length → ∀ a ∈ db, groundedB db pid f a = true →
      ∃ g, db.length - f ≤ g ∧
        OccursIn (mkAssetNode a (add_hierarchy db silo g a.aid))
          (add_hierarchy db silo (db.length + 1) pid) := by
    intro f
    induction f with
    | zero =>
      intro _ a _ hg
      simp [groundedB] at hg
    | succ f ih =>
      intro hf a ha hg
      rw [groundedB, Bool.or_eq_true] at hg
      rcases hg with hroot | hstep
      · rw [beq_iff_eq] at hroot
        refine ⟨db.length, by omega, OccursIn.here ?_⟩
        show _ ∈ (assetQuery db silo pid).map fun c =>
          mkAssetNode c (add_hierarchy db silo db.length c.aid)
        exact List.mem_map.mpr ⟨a, hquery a ha pid hroot, rfl⟩
      · rw [List.any_eq_true] at hstep
        obtain ⟨b, hb, hband⟩ := hstep
        rw [Bool.and_eq_true, beq_iff_eq] at hband
        obtain ⟨haid, hgb⟩ := hband
        obtain ⟨gb, hgb2, hocc⟩ := ih (by omega) b hb hgb
        obtain ⟨g, rfl⟩ : ∃ g0, gb = g0 + 1 := ⟨gb - 1, by omega⟩
        refine ⟨g, by omega, OccursIn.trans hocc (OccursIn.here ?_)⟩
        show _ ∈ (mkAssetNode b (add_hierarchy db silo (g + 1) b.aid)).children
        show _ ∈ (assetQuery db silo b.aid).map fun c =>
          mkAssetNode c (add_hierarchy db silo g c.aid)
        exact List.mem_map.mpr ⟨a, hquery a ha b.aid haid.symm, rfl⟩
  intro a ha
  obtain ⟨fuel, _, hocc⟩ := main db.length le_rfl a ha (hpar a ha)
  exact ⟨fuel, hocc⟩

/-- Witness for C7: a two-record database in which the child record comes
first in query order — a layout record parented to the shot, then the
deprecated shot record parented to the project (identifier 0) — showing that
only groundedness of the parent chains, not their order, is required. -/
theorem add_hierarchy_spec_witness :
    ((∀ a ∈ [({ aid := 2, name := "layout", atype := "asset", silo := "film", parent := 1,
                dataLabel := none, tags := [] } : Asset),
              { aid := 1, name := "shot01", atype := "asset", silo := "film", parent := 0,
                dataLabel := some "Shot 01", tags := ["deprecated"] }],
        a.atype = "asset" ∧ a.silo = "film") ∧
     (∀ a ∈ [({ aid := 2, name := "layout", atype := "asset", silo := "film", parent := 1,
                dataLabel := none, tags := [] } : Asset),
              { aid := 1, name := "shot01", atype := "asset", silo := "film", parent := 0,
                dataLabel := some "Shot 01", tags := ["deprecated"] }],
        groundedB [{ aid := 2, name := "layout", atype := "asset", silo := "film",
                     parent := 1, dataLabel := none, tags := [] },
                   { aid := 1, name := "shot01", atype := "asset", silo := "film",
                     parent := 0, dataLabel := some "Shot 01", tags := ["deprecated"] }]
          0 2 a = true)) ∧
    ((∀ fuel parent_id,
      add_hierarchy [{ aid := 2, name := "layout", atype := "asset", silo := "film",
                       parent := 1, dataLabel := none, tags := [] },
                     { aid := 1, name := "shot01", atype := "asset", silo := "film",
                       parent := 0, dataLabel := some "Shot 01", tags := ["deprecated"] }]
          "film" (fuel + 1) parent_id =
        (assetQuery [{ aid := 2, name := "layout", atype := "asset", silo := "film",
                       parent := 1, dataLabel := none, tags := [] },
                     { aid := 1, name := "shot01", atype := "asset", silo := "film",
                       parent := 0, dataLabel := some "Shot 01", tags := ["deprecated"] }]
          "film" parent_id).map
          fun a => mkAssetNode a
            (add_hierarchy [{ aid := 2, name := "layout", atype := "asset", silo := "film",
                              parent := 1, dataLabel := none, tags := [] },
                            { aid := 1, name := "shot01", atype := "asset", silo := "film",
                              parent := 0, dataLabel := some "Shot 01",
                              tags := ["deprecated"] }] "film"
              fuel a.aid)) ∧
    (∀ (a : Asset) (children : List BNode),
      (mkAssetNode a children).label = a.dataLabel.getD a.name ∧
      (mkAssetNode a children).tags = joinTags a.tags ∧
      ((mkAssetNode a children).deprecated = true ↔ "deprecated" ∈ a.tags) ∧
      (mkAssetNode a children).aid = a.aid ∧
      (mkAssetNode a children).name = a.name ∧
      (mkAssetNode a children).children = children) ∧
    (∀ a ∈ [({ aid := 2, name := "layout", atype := "asset", silo := "film", parent := 1,
               dataLabel := none, tags := [] } : Asset),
             { aid := 1, name := "shot01", atype := "asset", silo := "film", parent := 0,
               dataLabel := some "Shot 01", tags := ["deprecated"] }], ∃ fuel,
      OccursIn (mkAssetNode a
          (add_hierarchy [{ aid := 2, name := "layout", atype := "asset", silo := "film",
                            parent := 1, dataLabel := none, tags := [] },
                          { aid := 1, name := "shot01", atype := "asset", silo := "film",
                            parent := 0, dataLabel := some "Shot 01",
                            tags := ["deprecated"] }] "film"
            fuel a.aid))
        (add_hierarchy [{ aid := 2, name := "layout", atype := "asset", silo := "film",
                          parent := 1, dataLabel := none, tags := [] },
                        { aid := 1, name := "shot01", atype := "asset", silo := "film",
                          parent := 0, dataLabel := some "Shot 01",
                          tags := ["deprecated"] }] "film" 3 0))) :=
  ⟨⟨by decide, by decide⟩,
   add_hierarchy_spec
     [{ aid := 2, name := "layout", atype := "asset", silo := "film", parent := 1,
        dataLabel := none, tags := [] },
      { aid := 1, name := "shot01", atype := "asset", silo := "film", parent := 0,
        dataLabel := some "Shot 01", tags := ["deprecated"] }] "film" 0
     (by decide) (by decide)⟩

/-- Counterexample to C1 as stated: an identity rebuild (same two rows, with
identical DisplayKeys) of a tree with duplicate keys, where one node was
expanded and a current node was designated but nothing was selected.  After
restore the duplicate key expands both rows, and because the selection was
empty `preserve_selection` returned before its restore pass, so the captured
current node is lost — the final assignments differ from the captured ones. -/
theorem refresh_round_trip_counterexample :
    refreshPreserving [QTree.node 7 [], QTree.node 7 []]
      { expanded := [true, false], selected := [false, false], current := some 0 }
      [QTree.node 7 [], QTree.node 7 []]
      { expanded := [false, false], selected := [false, false], current := none }
      true
    ≠ { expanded := [true, false], selected := [false, false], current := some 0 } := by
  decide

/-- C1 (amended): the nested capture/rebuild/restore of
`preserve_expanded_rows` around `preserve_selection` restores expansion,
selection and current-node assignments exactly, under an identity rebuild
(isomorphic tree with identical DisplayKeys), provided the DisplayKeys of the
tree are pairwise distinct and truthy (nonzero), the rebuild resets the view
(all rows collapsed and deselected, no current index), and — forced by the
early return of `preserve_selection` on an empty selection — at least one row
is selected whenever a current node is designated. -/
theorem refresh_round_trip (m : Model) (st st' : ViewState)
    (hnodup : ((rows m).map QTree.key).Nodup)
    (htruthy : ∀ n ∈ rows m, n.key ≠ 0)
    (hexp : st.expanded.length = (rows m).length)
    (hsel : st.selected.length = (rows m).length)
    (hcur : ∀ p, st.current = some p → p < (rows m).length)
    (hreset : st' = { expanded := List.replicate (rows m).length false,
                      selected := List.replicate (rows m).length false,
                      current := none })
    (hc : st.selected.contains true = true ∨ st.current = none) :
    refreshPreserving m st m st' true = st := by
  have hkeyinj : ∀ i j, ∀ hi : i < (rows m).length, ∀ hj : j < (rows m).length,
      ((rows m)[i]).key = ((rows m)[j]).key → i = j := by
    intro i j hi hj hk
    have hi2 : i < ((rows m).map QTree.key).length := by simpa using hi
    have hj2 : j < ((rows m).map QTree.key).length := by simpa using hj
    have h1 : ((rows m).map QTree.key)[i] = ((rows m).map QTree.key)[j] := by
      simpa [List.getElem_map] using hk
    exact (List.Nodup.getElem_inj_iff hnodup).mp h1
  -- the outer expansion restore, applied to any post-inner state whose
  -- expansion is the reset assignment, reinstates the captured expansion
  have hexpfinal : ∀ stX : ViewState,
      stX.expanded = List.replicate (rows m).length false →
      (preserve_expanded_rows m st m stX false).1 = { stX with expanded := st.expanded } := by
    intro stX hX
    by_cases hcap : capturedExpandedKeys m st = []
    · have hrep : st.expanded = List.replicate (rows m).length false := by
        rw [capturedExpandedKeys, zipKeys_eq_nil_iff] at hcap
        refine List.ext_getElem (by simp [hexp]) ?_
        intro i h1 h2
        rw [List.getElem_replicate]
        exact hcap i (by omega) (by omega)
      rw [preserve_expanded_rows]
      simp only [hcap, List.isEmpty_nil, if_true]
      rw [hrep, ← hX]
    · have hne : (capturedExpandedKeys m st).isEmpty = false := by
        rw [List.isEmpty_eq_false_iff_exists_mem]
        obtain ⟨k, hk⟩ := List.exists_mem_of_ne_nil _ hcap
        exact ⟨k, hk⟩
      rw [preserve_expanded_rows]
      simp only [hne, Bool.false_eq_true, if_false]
      congr 1
      refine List.ext_getElem (by simp [expandRestore, hexp]) ?_
      intro i h1 h2
      have hi : i < (rows m).length := by simpa [expandRestore] using h1
      simp only [expandRestore, List.getElem_map]
      rw [Bool.eq_iff_iff]
      constructor
      · intro hcon
        have hmem : ((rows m)[i]).key ∈ capturedExpandedKeys m st :=
          List.elem_iff.mp hcon
        obtain ⟨j, hj1, hj2, hbj, hkeyj⟩ :=
          (mem_zipKeys_iff (rows m) st.expanded (((rows m)[i]).key)).mp hmem
        have hji : j = i := hkeyinj j i hj1 hi hkeyj
        subst hji
        exact hbj
      · intro hb
        exact List.elem_iff.mpr
          ((mem_zipKeys_iff (rows m) st.expanded (((rows m)[i]).key)).mpr
            ⟨i, hi, by omega, hb, rfl⟩)
  by_cases hselcap : selectedKeys m st = []
  · -- nothing selected: the inner manager neither captures nor restores
    have hsrep : st.selected = List.replicate (rows m).length false := by
      rw [selectedKeys, zipKeys_eq_nil_iff] at hselcap
      refine List.ext_getElem (by simp [hsel]) ?_
      intro i h1 h2
      rw [List.getElem_replicate]
      exact hselcap i (by omega) (by omega)
    have hcnone : st.current = none := by
      rcases hc with hc | hc
      · exfalso
        have hmem : (true : Bool) ∈ st.selected := List.elem_iff.mp hc
        rw [hsrep, List.mem_replicate] at hmem
        exact Bool.false_ne_true hmem.2.symm
      · exact hc
    have hinner : (preserve_selection m st m st' false true).1 = st' := by
      rw [preserve_selection]
      simp only [hselcap, List.isEmpty_nil, if_true]
    rw [refreshPreserving, hinner, hexpfinal st' (by rw [hreset]), hreset]
    rw [← hsrep, ← hcnone]
  · -- something selected: the inner manager restores selection and current
    have hne : (selectedKeys m st).isEmpty = false := by
      rw [List.isEmpty_eq_false_iff_exists_mem]
      obtain ⟨k, hk⟩ := List.exists_mem_of_ne_nil _ hselcap
      exact ⟨k, hk⟩
    have hselfinal : selectRestore (selectedKeys m st) (rows m)
        (List.replicate (rows m).length false) = st.selected := by
      refine List.ext_getElem (by simp [selectRestore, hsel]) ?_
      intro i h1 h2
      have hi : i < (rows m).length := by
        simp only [selectRestore, List.length_zipWith, List.length_replicate] at h1
        omega
      simp only [selectRestore, List.getElem_zipWith, List.getElem_replicate, Bool.false_or]
      rw [Bool.eq_iff_iff]
      constructor
      · intro hcon
        have hmem : ((rows m)[i]).key ∈ selectedKeys m st := List.elem_iff.mp hcon
        obtain ⟨j, hj1, hj2, hbj, hkeyj⟩ :=
          (mem_zipKeys_iff (rows m) st.selected (((rows m)[i]).key)).mp hmem
        have hji : j = i := hkeyinj j i hj1 hi hkeyj
        subst hji
        exact hbj
      · intro hb
        exact List.elem_iff.mpr
          ((mem_zipKeys_iff (rows m) st.selected (((rows m)[i]).key)).mpr
            ⟨i, hi, by omega, hb, rfl⟩)
    have hcurfinal : currentRestore (currentKeyOf m st) (rows m) none = st.current := by
      cases hcu : st.current with
      | none => rw [currentKeyOf, hcu]; rfl
      | some p =>
        have hp : p < (rows m).length := hcur p hcu
        have hkey : currentKeyOf m st = some (((rows m)[p]).key) := by
          rw [currentKeyOf, hcu]
          simp [List.getElem?_eq_getElem hp]
        rw [hkey, currentRestore]
        have hv : ((rows m)[p]).key ≠ 0 :=
          htruthy _ (List.getElem_mem hp)
        rw [if_neg hv]
        obtain ⟨j, hj, heq, hkeyj, _⟩ := lastMatchAux_last_match (((rows m)[p]).key)
          (rows m) 0 none ⟨(rows m)[p], List.getElem_mem hp, rfl⟩
        rw [heq, Nat.zero_add]
        have : j = p := hkeyinj j p hj hp hkeyj
        rw [this]
    have hinner : (preserve_selection m st m st' false true).1 =
        { st' with selected := st.selected, current := st.current } := by
      rw [preserve_selection]
      simp only [hne, Bool.false_eq_true, if_false, if_true]
      rw [hreset]
      simp only
      rw [hselfinal, hcurfinal]
    rw [refreshPreserving, hinner,
      hexpfinal { st' with selected := st.selected, current := st.current }
        (by rw [hreset])]

/-- Witness for C1 (amended): a two-level tree with distinct nonzero keys
1, 2, 3 (rows in breadth-first order), one row expanded, one selected, and a
current node, round-tripped through an identity rebuild that reset the view. -/
theorem refresh_round_trip_witness :
    ((List.map QTree.key (rows [QTree.node 1 [QTree.node 3 []], QTree.node 2 []])).Nodup ∧
     (∀ n ∈ rows [QTree.node 1 [QTree.node 3 []], QTree.node 2 []], n.key ≠ 0) ∧
     (∀ p, (some 2 : Option Nat) = some p →
        p < (rows [QTree.node 1 [QTree.node 3 []], QTree.node 2 []]).length) ∧
     (([false, true, false] : List Bool).contains true = true ∨
        (some 2 : Option Nat) = none)) ∧
    refreshPreserving [QTree.node 1 [QTree.node 3 []], QTree.node 2 []]
      { expanded := [true, false, false], selected := [false, true, false],
        current := some 2 }
      [QTree.node 1 [QTree.node 3 []], QTree.node 2 []]
      { expanded := List.replicate
          (rows [QTree.node 1 [QTree.node 3 []], QTree.node 2 []]).length false,
        selected := List.replicate
          (rows [QTree.node 1 [QTree.node 3 []], QTree.node 2 []]).length false,
        current := none }
      true
    = { expanded := [true, false, false], selected := [false, true, false],
        current := some 2 } :=
  ⟨⟨by decide, by decide, fun p hp => by injection hp with h; subst h; decide,
    Or.inl (by decide)⟩,
   refresh_round_trip [QTree.node 1 [QTree.node 3 []], QTree.node 2 []]
     { expanded := [true, false, false], selected := [false, true, false],
       current := some 2 }
     { expanded := List.replicate
         (rows [QTree.node 1 [QTree.node 3 []], QTree.node 2 []]).length false,
       selected := List.replicate
         (rows [QTree.node 1 [QTree.node 3 []], QTree.node 2 []]).length false,
       current := none }
     (by decide) (by decide) (by decide) (by decide)
     (fun p hp => by injection hp with h; subst h; decide)
     rfl (Or.inl (by decide))⟩
